import Mathlib

/-!
Shallow embedding of `src/fix.py`, a reconciler that keeps Cloudflare DNS
records in sync with the ingress rules of Cloudflare tunnels.

Python dictionaries keyed by hostname are embedded as insertion-ordered
association lists (`Dict`); lookup takes the first binding, and the builders
only ever produce duplicate-free key lists. Set comprehensions over
`keys() - keys()` and `keys() & keys()` iterate in an unspecified order in
Python, so they are embedded as order-preserving filters of the dictionary
they draw values from; every theorem below is independent of batch order.
Provider calls are modelled by their inputs and outputs: the zone listing,
the tunnel listing with each configuration attached, and the record listing
are parameters, and the mutating calls (`post`, `patch`, `delete`) become an
emitted list of `Mutation` values.
-/

/-- Mirrors the frozen dataclass `Record` of fix.py (lines 14-22): `id` is
`None` for records not yet created, `ttl` is an int. -/
structure Record where
  id : Option String
  zone_id : String
  type : String
  content : String
  proxiable : Bool
  proxied : Bool
  ttl : Nat
deriving DecidableEq, Repr

/-- Payload of `Record.data()` (fix.py line 24-25): every dataclass field
except `id` and `zone_id`. -/
structure RecordData where
  type : String
  content : String
  proxiable : Bool
  proxied : Bool
  ttl : Nat
deriving DecidableEq, Repr

/-- Embeds `Record.data()` of fix.py: drop `id` and `zone_id`, keep the rest. -/
def Record.data (r : Record) : RecordData :=
  ⟨r.type, r.content, r.proxiable, r.proxied, r.ttl⟩

/-- An element of the `cf.zones.get()` response: an id and a name. -/
structure Zone where
  id : String
  name : String
deriving DecidableEq, Repr

/-- One entry of `config["config"]["ingress"]`: the hostname key is optional
(fix.py line 56 skips entries without it). -/
structure IngressRule where
  hostname : Option String
deriving DecidableEq, Repr

/-- A tunnel from `cf.accounts.cfd_tunnel.get` together with the ingress
rules fetched for it by `cf.accounts.cfd_tunnel.configurations`. -/
structure Tunnel where
  id : String
  name : String
  ingress : List IngressRule
deriving DecidableEq, Repr

/-- A Python dict keyed by hostname, as an insertion-ordered association
list. The builders keep keys duplicate-free (`dnodup`). -/
abbrev Dict := List (String × Record)

/-- Dictionary lookup `m[k]`: the binding of the key (first match; keys are
unique in every dict the program builds). -/
def dget : Dict → String → Option Record
  | [], _ => none
  | p :: m, k => if p.1 = k then some p.2 else dget m k

/-- Python `m.keys()` in insertion order. -/
def dkeys (m : Dict) : List String :=
  m.map Prod.fst

/-- Key membership `k in m`, the primitive behind Python key-set difference
and intersection. -/
def dhas (m : Dict) (k : String) : Bool :=
  (dget m k).isSome

/-- Python dict assignment `m[k] = v`: replace in place when the key exists,
append otherwise. -/
def dinsert (m : Dict) (k : String) (v : Record) : Dict :=
  if dhas m k then m.map (fun p => if p.1 = k then (k, v) else p)
  else m ++ [(k, v)]

/-- The dict has no duplicate keys (true of every dict fix.py builds). -/
def dnodup (m : Dict) : Prop :=
  (dkeys m).Nodup

instance (m : Dict) : Decidable (dnodup m) := by
  unfold dnodup; infer_instance

/-- Python `s.endswith(suffix)`, as a suffix test on the character lists. -/
def endswith (s suffix : String) : Bool :=
  suffix.toList.isSuffixOf s.toList

/-- Python `s.split(".")` on the character list: split at every dot, keeping
empty segments, so a dot-free string yields one segment and the empty string
yields `[[]]`. -/
def splitOnDot : List Char → List (List Char)
  | [] => [[]]
  | c :: rest =>
    match splitOnDot rest with
    | [] => [[]]
    | g :: gs => if c = '.' then [] :: g :: gs else (c :: g) :: gs

/-- fix.py line 58: `zone_name = ".".join(elem["hostname"].split(".")[1:])` —
the hostname with its first label dropped. -/
def apexDomain (hostname : String) : String :=
  String.mk (List.intercalate ['.'] ((splitOnDot hostname.toList).drop 1))

/-- Embeds `zone_name_to_id` (fix.py lines 38-43): first zone whose name matches,
else `raise ValueError(f"zone \x7bzone_name\x7d not found")`; the error value
carries the missing zone name. The `@cache` decorator does not change the
function value. -/
def zone_name_to_id (zs : List Zone) (zone_name : String) : Except String String :=
  match zs.find? (fun z => z.name == zone_name) with
  | some z => Except.ok z.id
  | none => Except.error zone_name

/-- The successful result of `zone_name_to_id`, as an Option. -/
def lookupZoneId (zs : List Zone) (name : String) : Option String :=
  (zone_name_to_id zs name).toOption

/-- Whether some zone in the listing has this exact name. -/
def zoneResolvable (zs : List Zone) (name : String) : Bool :=
  (lookupZoneId zs name).isSome

/-- The record fix.py lines 60-68 inserts for an ingress hostname: no id yet,
the resolved zone, a CNAME at `<tunnelId>.cfargotunnel.com`, proxied, ttl 1. -/
def desiredRecord (zid tid : String) : Record :=
  { id := none
    zone_id := zid
    type := "CNAME"
    content := tid ++ ".cfargotunnel.com"
    proxiable := true
    proxied := true
    ttl := 1 }

/-- Inner loop of `desired()` (fix.py lines 55-68): fold the ingress rules of
one tunnel into the accumulating dict, skipping rules without a hostname and
propagating the `ValueError` of `zone_name_to_id`. -/
def desiredRules (zs : List Zone) (tid : String) (acc : Dict) :
    List IngressRule → Except String Dict
  | [] => Except.ok acc
  | r :: rest =>
    match r.hostname with
    | none => desiredRules zs tid acc rest
    | some hn =>
      match zone_name_to_id zs (apexDomain hn) with
      | Except.error e => Except.error e
      | Except.ok zid => desiredRules zs tid (dinsert acc hn (desiredRecord zid tid)) rest

/-- Outer loop of `desired()` (fix.py lines 48-68) over the tunnels. -/
def desiredTunnels (zs : List Zone) (acc : Dict) : List Tunnel → Except String Dict
  | [] => Except.ok acc
  | t :: rest =>
    match desiredRules zs t.id acc t.ingress with
    | Except.error e => Except.error e
    | Except.ok acc2 => desiredTunnels zs acc2 rest

/-- Embeds `desired()` (fix.py lines 46-69), parameterised by the zone listing and
the tunnel listing with configurations attached. -/
def desired (zs : List Zone) (ts : List Tunnel) : Except String Dict :=
  desiredTunnels zs [] ts

/-- The dict comprehension of `create` (fix.py line 106):
`\x7bk: desired[k] for k in desired.keys() - current.keys()\x7d`. -/
def createSet (desiredD currentD : Dict) : Dict :=
  desiredD.filter (fun p => !dhas currentD p.1)

/-- The dict comprehension of `delete` (fix.py lines 126-130):
`\x7bk: current[k] for k in current.keys() - desired.keys() if k.endswith(".cfargotunnel.com")\x7d`.
Note the filter tests the hostname `k`, not the record content. -/
def deleteSet (desiredD currentD : Dict) : Dict :=
  currentD.filter (fun p => !dhas desiredD p.1 && endswith p.1 ".cfargotunnel.com")

/-- Embeds `truedesire` (fix.py lines 148-150): the desired record with the id of
the current one. -/
def truedesire (desired_record current_record : Record) : Record :=
  { desired_record with id := current_record.id }

/-- The dict comprehension of `update` (fix.py lines 152-156):
`\x7bk: truedesire(desired[k], current[k]) for k in desired.keys() & current.keys() if truedesire(desired[k], current[k]) != current[k]\x7d`. -/
def updateSet (desiredD currentD : Dict) : Dict :=
  desiredD.filterMap (fun p =>
    match dget currentD p.1 with
    | some cr => if truedesire p.2 cr ≠ cr then some (p.1, truedesire p.2 cr) else none
    | none => none)

/-- A provider mutation call: `cf.zones.dns_records.post`, `.patch` or
`.delete`, with the arguments fix.py passes. -/
inductive Mutation where
  | post (zoneId : String) (name : String) (data : RecordData)
  | patch (zoneId : String) (recId : Option String) (name : String) (data : RecordData)
  | delete (zoneId : String) (recId : Option String)
deriving DecidableEq, Repr

/-- Embeds `create` (fix.py lines 104-121): the list of `post` calls issued. The
`answer` argument stands for the `input()` response; the empty batch and the
declined prompt both return before any call. -/
def create (desiredD currentD : Dict) (prompt : Bool) (answer : String) : List Mutation :=
  let records := createSet desiredD currentD
  if records.length = 0 then []
  else if prompt && !(answer == "y") then []
  else records.map (fun p => Mutation.post p.2.zone_id p.1 p.2.data)

/-- Embeds `update` (fix.py lines 145-174): the list of `patch` calls issued,
addressed by the zone id and record id carried by the `truedesire` record. -/
def update (desiredD currentD : Dict) (prompt : Bool) (answer : String) : List Mutation :=
  let records := updateSet desiredD currentD
  if records.length = 0 then []
  else if prompt && !(answer == "y") then []
  else records.map (fun p => Mutation.patch p.2.zone_id p.2.id p.1 p.2.data)

/-- Embeds `delete` (fix.py lines 124-142): the list of `delete` calls issued.
When the prompt is declined the source logs "not deleting records" but,
unlike `create` and `update`, has no `return` statement (line 139), so the
deletion loop at lines 140-142 runs regardless of `prompt` and `answer`;
only the empty batch returns early. -/
def delete (desiredD currentD : Dict) (_prompt : Bool) (_answer : String) : List Mutation :=
  let records := deleteSet desiredD currentD
  if records.length = 0 then []
  else records.map (fun p => Mutation.delete p.2.zone_id p.2.id)

/-- Embeds `process` (fix.py lines 96-101): build the desired map (a `ValueError`
from zone resolution propagates and nothing is mutated), then run the
create, update and delete batches in that order, each with its own prompt
answer. `currentD` is the result of `current()`, built from the live record
listing. -/
def process (zs : List Zone) (ts : List Tunnel) (currentD : Dict) (prompt : Bool)
    (aCreate aUpdate aDelete : String) : Except String (List Mutation) :=
  match desired zs ts with
  | Except.error e => Except.error e
  | Except.ok d =>
      Except.ok (create d currentD prompt aCreate ++ update d currentD prompt aUpdate
        ++ delete d currentD prompt aDelete)


/-! ### Spec-side view of the ingress configuration -/

/-- The (hostname, tunnel id) pairs contributed by the ingress rules of one
tunnel, in rule order; rules without a hostname contribute nothing. -/
def ruleEntries (tid : String) (rules : List IngressRule) : List (String × String) :=
  rules.filterMap (fun r => r.hostname.map (fun hn => (hn, tid)))

/-- All (hostname, tunnel id) pairs of the run, in tunnel order then rule
order. -/
def ingressEntries (ts : List Tunnel) : List (String × String) :=
  (ts.map (fun t => ruleEntries t.id t.ingress)).flatten

/-- The last entry carrying this hostname, if any: the rule that wins under
the last-wins overwrite policy of the desired map. -/
def lastEntry (entries : List (String × String)) (k : String) :
    Option (String × String) :=
  entries.reverse.find? (fun p => decide (p.1 = k))

/-! ### Association-list dictionary lemmas -/

theorem dget_cons (p : String × Record) (m : Dict) (k : String) :
    dget (p :: m) k = if p.1 = k then some p.2 else dget m k := rfl

theorem dhas_cons (p : String × Record) (m : Dict) (k : String) :
    dhas (p :: m) k = if p.1 = k then true else dhas m k := by
  by_cases h : p.1 = k
  · simp [dhas, dget_cons, h]
  · simp [dhas, dget_cons, h]

theorem dhas_iff_mem_keys (m : Dict) (k : String) :
    dhas m k = true ↔ k ∈ dkeys m := by
  induction m with
  | nil => simp [dhas, dget, dkeys]
  | cons p m ih =>
    by_cases h : p.1 = k
    · simp [dhas, dget_cons, h, dkeys]
    · rw [dhas_cons, if_neg h]
      unfold dkeys
      rw [List.map_cons, List.mem_cons]
      constructor
      · intro hh
        exact Or.inr (ih.mp hh)
      · rintro (hh | hh)
        · exact absurd hh.symm h
        · exact ih.mpr hh

theorem dhas_false_iff (m : Dict) (k : String) :
    dhas m k = false ↔ k ∉ dkeys m := by
  rw [Bool.eq_false_iff]
  exact not_congr (dhas_iff_mem_keys m k)

theorem dget_eq_none_of_not_mem (m : Dict) (k : String) (h : k ∉ dkeys m) :
    dget m k = none := by
  cases hd : dget m k with
  | none => rfl
  | some v =>
    exact absurd ((dhas_iff_mem_keys m k).mp (by simp [dhas, hd])) h

theorem dget_replace_ne (m : Dict) (k : String) (v : Record) (k2 : String) (h : k2 ≠ k) :
    dget (m.map (fun p => if p.1 = k then (k, v) else p)) k2 = dget m k2 := by
  induction m with
  | nil => rfl
  | cons p m ih =>
    rw [List.map_cons]
    by_cases hp : p.1 = k
    · rw [if_pos hp, dget_cons, dget_cons]
      have h1 : ¬((k, v).1 = k2) := fun hh => h (hh.symm)
      have h2 : ¬(p.1 = k2) := fun hh => h ((hp ▸ hh).symm)
      rw [if_neg h1, if_neg h2, ih]
    · rw [if_neg hp, dget_cons, dget_cons]
      by_cases hq : p.1 = k2
      · rw [if_pos hq, if_pos hq]
      · rw [if_neg hq, if_neg hq, ih]

theorem dget_replace_self (m : Dict) (k : String) (v : Record) (h : dhas m k = true) :
    dget (m.map (fun p => if p.1 = k then (k, v) else p)) k = some v := by
  induction m with
  | nil => simp [dhas, dget] at h
  | cons p m ih =>
    rw [List.map_cons]
    by_cases hp : p.1 = k
    · rw [if_pos hp, dget_cons, if_pos rfl]
    · rw [if_neg hp, dget_cons, if_neg hp]
      rw [dhas_cons, if_neg hp] at h
      exact ih h

theorem dget_append_single (m : Dict) (k : String) (v : Record) (k2 : String)
    (h : dhas m k = false) :
    dget (m ++ [(k, v)]) k2 = if k2 = k then some v else dget m k2 := by
  induction m with
  | nil =>
    rw [List.nil_append, dget_cons]
    by_cases hk : k2 = k
    · rw [if_pos hk.symm, if_pos hk]
    · rw [if_neg (fun hh => hk hh.symm), if_neg hk]
  | cons p m ih =>
    rw [dhas_cons] at h
    by_cases hp : p.1 = k
    · rw [if_pos hp] at h
      exact absurd h (by simp)
    · rw [if_neg hp] at h
      rw [List.cons_append, dget_cons, dget_cons]
      by_cases hq : p.1 = k2
      · rw [if_pos hq, if_pos hq]
        rw [if_neg (fun hh : k2 = k => hp (hq ▸ hh))]
      · rw [if_neg hq, if_neg hq, ih h]

theorem dget_dinsert (m : Dict) (k : String) (v : Record) (k2 : String) :
    dget (dinsert m k v) k2 = if k2 = k then some v else dget m k2 := by
  unfold dinsert
  by_cases h : dhas m k
  · rw [if_pos h]
    by_cases hk : k2 = k
    · subst hk
      rw [dget_replace_self m k2 v h, if_pos rfl]
    · rw [dget_replace_ne m k v k2 hk, if_neg hk]
  · rw [if_neg h]
    exact dget_append_single m k v k2 (Bool.eq_false_iff.mpr h)

theorem dkeys_dinsert (m : Dict) (k : String) (v : Record) :
    dkeys (dinsert m k v) = if dhas m k then dkeys m else dkeys m ++ [k] := by
  unfold dinsert
  by_cases h : dhas m k
  · rw [if_pos h, if_pos h]
    unfold dkeys
    rw [List.map_map]
    apply List.map_congr_left
    intro p _
    by_cases hp : p.1 = k
    · simp [Function.comp, hp]
    · simp [Function.comp, hp]
  · rw [if_neg h, if_neg h]
    simp [dkeys]

theorem dnodup_dinsert (m : Dict) (k : String) (v : Record) (h : dnodup m) :
    dnodup (dinsert m k v) := by
  unfold dnodup
  rw [dkeys_dinsert]
  by_cases hk : dhas m k
  · rw [if_pos hk]; exact h
  · rw [if_neg hk]
    have : k ∉ dkeys m := (dhas_false_iff m k).mp (Bool.eq_false_iff.mpr hk)
    simp only [List.nodup_append, List.nodup_cons]
    refine ⟨h, by simp, ?_⟩
    intro a ha hb
    simp only [List.mem_singleton] at hb
    exact this (hb ▸ ha)

theorem dget_of_mem_nodup (m : Dict) (k : String) (v : Record)
    (hnd : dnodup m) (hm : (k, v) ∈ m) : dget m k = some v := by
  induction m with
  | nil => simp at hm
  | cons p m ih =>
    unfold dnodup dkeys at hnd
    rw [List.map_cons, List.nodup_cons] at hnd
    rcases List.mem_cons.mp hm with heq | hmem
    · rw [← heq, dget_cons, if_pos rfl]
    · have hne : p.1 ≠ k := by
        intro hc
        exact hnd.1 (hc ▸ (List.mem_map.mpr ⟨(k, v), hmem, rfl⟩))
      rw [dget_cons, if_neg hne]
      exact ih hnd.2 hmem

/-! ### Characterisations of the three diff sets -/

theorem dget_filter_not_mem (d : Dict) (f : String × Record → Bool) (k : String)
    (h : k ∉ dkeys d) : dget (d.filter f) k = none := by
  induction d with
  | nil => rfl
  | cons p d ih =>
    simp only [dkeys, List.map_cons, List.mem_cons, not_or] at h
    rw [List.filter_cons]
    by_cases hf : f p
    · rw [if_pos hf, dget_cons, if_neg (fun hh => h.1 hh.symm)]
      exact ih h.2
    · rw [if_neg hf]
      exact ih h.2

theorem dnodup_cons_split (p : String × Record) (d : Dict) (hd : dnodup (p :: d)) :
    p.1 ∉ dkeys d ∧ dnodup d := by
  unfold dnodup dkeys at hd
  rw [List.map_cons, List.nodup_cons] at hd
  exact hd

theorem createSet_cons (p : String × Record) (d c : Dict) :
    createSet (p :: d) c =
      if dhas c p.1 then createSet d c else p :: createSet d c := by
  unfold createSet
  rw [List.filter_cons]
  by_cases h : dhas c p.1
  · simp [h]
  · simp [h]

theorem deleteSet_cons (p : String × Record) (d c : Dict) :
    deleteSet d (p :: c) =
      if !dhas d p.1 && endswith p.1 ".cfargotunnel.com" then p :: deleteSet d c
      else deleteSet d c := by
  unfold deleteSet
  rw [List.filter_cons]

theorem updateSet_cons_none (p : String × Record) (d c : Dict)
    (hc : dget c p.1 = none) : updateSet (p :: d) c = updateSet d c := by
  unfold updateSet
  rw [List.filterMap_cons_none]
  simp [hc]

theorem updateSet_cons_ne (p : String × Record) (d c : Dict) (cr : Record)
    (hc : dget c p.1 = some cr) (ht : truedesire p.2 cr ≠ cr) :
    updateSet (p :: d) c = (p.1, truedesire p.2 cr) :: updateSet d c := by
  unfold updateSet
  rw [List.filterMap_cons_some]
  simp [hc, ht]

theorem updateSet_cons_eq (p : String × Record) (d c : Dict) (cr : Record)
    (hc : dget c p.1 = some cr) (ht : truedesire p.2 cr = cr) :
    updateSet (p :: d) c = updateSet d c := by
  unfold updateSet
  rw [List.filterMap_cons_none]
  simp [hc, ht]

theorem createSet_dget (d c : Dict) (hd : dnodup d) (k : String) :
    dget (createSet d c) k = if dhas c k then none else dget d k := by
  induction d with
  | nil =>
    by_cases h : dhas c k
    · simp [createSet, dget, h]
    · simp [createSet, dget, h]
  | cons p d ih =>
    have hnd := dnodup_cons_split p d hd
    rw [createSet_cons]
    by_cases hp : p.1 = k
    · by_cases hc : dhas c k
      · rw [if_pos (hp ▸ hc)]
        rw [if_pos hc]
        have : dget (createSet d c) k = if dhas c k then none else dget d k := ih hnd.2
        rw [this, if_pos hc]
      · rw [if_neg (by rw [hp]; exact hc), dget_cons, if_pos hp, if_neg hc, dget_cons,
          if_pos hp]
    · have hrest : dget (p :: d) k = dget d k := by rw [dget_cons, if_neg hp]
      by_cases hc2 : dhas c p.1
      · rw [if_pos hc2, ih hnd.2, hrest]
      · rw [if_neg hc2, dget_cons, if_neg hp, ih hnd.2, hrest]

theorem updateSet_not_mem (d c : Dict) (k : String) (h : k ∉ dkeys d) :
    dget (updateSet d c) k = none := by
  induction d with
  | nil => rfl
  | cons p d ih =>
    simp only [dkeys, List.map_cons, List.mem_cons, not_or] at h
    cases hc : dget c p.1 with
    | none =>
      rw [updateSet_cons_none p d c hc]
      exact ih h.2
    | some cr =>
      by_cases ht : truedesire p.2 cr ≠ cr
      · rw [updateSet_cons_ne p d c cr hc ht, dget_cons, if_neg (fun hh => h.1 hh.symm)]
        exact ih h.2
      · rw [updateSet_cons_eq p d c cr hc (not_not.mp ht)]
        exact ih h.2

theorem updateSet_dget (d c : Dict) (hd : dnodup d) (k : String) (dr : Record)
    (hdk : dget d k = some dr) :
    dget (updateSet d c) k =
      match dget c k with
      | some cr => if truedesire dr cr = cr then none else some (truedesire dr cr)
      | none => none := by
  induction d with
  | nil => simp [dget] at hdk
  | cons p d ih =>
    have hnd := dnodup_cons_split p d hd
    by_cases hp : p.1 = k
    · rw [dget_cons, if_pos hp] at hdk
      have hdr : p.2 = dr := by injection hdk
      cases hc : dget c p.1 with
      | none =>
        rw [updateSet_cons_none p d c hc]
        have hck : dget c k = none := hp ▸ hc
        rw [hck]
        exact updateSet_not_mem d c k (hp ▸ hnd.1)
      | some cr =>
        have hck : dget c k = some cr := hp ▸ hc
        rw [hck]
        by_cases ht : truedesire dr cr = cr
        · rw [updateSet_cons_eq p d c cr hc (hdr ▸ ht)]
          show dget (updateSet d c) k = if truedesire dr cr = cr then none
            else some (truedesire dr cr)
          rw [if_pos ht]
          exact updateSet_not_mem d c k (hp ▸ hnd.1)
        · rw [updateSet_cons_ne p d c cr hc (hdr ▸ ht)]
          show dget ((p.1, truedesire p.2 cr) :: updateSet d c) k =
            if truedesire dr cr = cr then none else some (truedesire dr cr)
          rw [if_neg ht, dget_cons, if_pos hp, hdr]
    · rw [dget_cons, if_neg hp] at hdk
      cases hc : dget c p.1 with
      | none =>
        rw [updateSet_cons_none p d c hc]
        exact ih hnd.2 hdk
      | some cr =>
        by_cases ht : truedesire p.2 cr ≠ cr
        · rw [updateSet_cons_ne p d c cr hc ht, dget_cons, if_neg hp]
          exact ih hnd.2 hdk
        · rw [updateSet_cons_eq p d c cr hc (not_not.mp ht)]
          exact ih hnd.2 hdk

/-! ### Unfolding and zone-lookup lemmas for the desired-state builder -/

theorem desiredRules_nil (zs : List Zone) (tid : String) (acc : Dict) :
    desiredRules zs tid acc [] = Except.ok acc := rfl

theorem desiredRules_cons_skip (zs : List Zone) (tid : String) (acc : Dict)
    (r : IngressRule) (rest : List IngressRule) (h : r.hostname = none) :
    desiredRules zs tid acc (r :: rest) = desiredRules zs tid acc rest := by
  simp only [desiredRules, h]

theorem desiredRules_cons_err (zs : List Zone) (tid : String) (acc : Dict)
    (r : IngressRule) (rest : List IngressRule) (hn : String) (e : String)
    (h : r.hostname = some hn) (hz : zone_name_to_id zs (apexDomain hn) = Except.error e) :
    desiredRules zs tid acc (r :: rest) = Except.error e := by
  simp only [desiredRules, h, hz]

theorem desiredRules_cons_ok (zs : List Zone) (tid : String) (acc : Dict)
    (r : IngressRule) (rest : List IngressRule) (hn : String) (zid : String)
    (h : r.hostname = some hn) (hz : zone_name_to_id zs (apexDomain hn) = Except.ok zid) :
    desiredRules zs tid acc (r :: rest) =
      desiredRules zs tid (dinsert acc hn (desiredRecord zid tid)) rest := by
  simp only [desiredRules, h, hz]

theorem desiredTunnels_nil (zs : List Zone) (acc : Dict) :
    desiredTunnels zs acc [] = Except.ok acc := rfl

theorem desiredTunnels_cons_err (zs : List Zone) (acc : Dict) (t : Tunnel)
    (rest : List Tunnel) (e : String) (h : desiredRules zs t.id acc t.ingress = Except.error e) :
    desiredTunnels zs acc (t :: rest) = Except.error e := by
  simp only [desiredTunnels, h]

theorem desiredTunnels_cons_ok (zs : List Zone) (acc : Dict) (t : Tunnel)
    (rest : List Tunnel) (acc2 : Dict) (h : desiredRules zs t.id acc t.ingress = Except.ok acc2) :
    desiredTunnels zs acc (t :: rest) = desiredTunnels zs acc2 rest := by
  simp only [desiredTunnels, h]

theorem zone_find_none_iff (zs : List Zone) (n : String) :
    zoneResolvable zs n = false ↔ zs.find? (fun z => z.name == n) = none := by
  unfold zoneResolvable lookupZoneId zone_name_to_id
  cases hf : zs.find? (fun z => z.name == n) <;> simp [Except.toOption]

theorem zone_ok_iff (zs : List Zone) (n zid : String) :
    zone_name_to_id zs n = Except.ok zid ↔ lookupZoneId zs n = some zid := by
  unfold lookupZoneId
  cases hz : zone_name_to_id zs n <;> simp [Except.toOption]

theorem zone_err_props (zs : List Zone) (n e : String)
    (h : zone_name_to_id zs n = Except.error e) :
    e = n ∧ zoneResolvable zs n = false := by
  unfold zone_name_to_id at h
  cases hf : zs.find? (fun z => z.name == n) with
  | some z => rw [hf] at h; cases h
  | none =>
    rw [hf] at h
    refine ⟨(Except.error.inj h).symm, ?_⟩
    rw [zone_find_none_iff]
    exact hf

theorem zone_err_of_unresolvable (zs : List Zone) (n : String)
    (h : zoneResolvable zs n = false) : zone_name_to_id zs n = Except.error n := by
  rw [zone_find_none_iff] at h
  unfold zone_name_to_id
  rw [h]

theorem ruleEntries_cons_skip (tid : String) (r : IngressRule) (rest : List IngressRule)
    (h : r.hostname = none) : ruleEntries tid (r :: rest) = ruleEntries tid rest := by
  simp [ruleEntries, h]

theorem ruleEntries_cons (tid : String) (r : IngressRule) (rest : List IngressRule)
    (hn : String) (h : r.hostname = some hn) :
    ruleEntries tid (r :: rest) = (hn, tid) :: ruleEntries tid rest := by
  simp [ruleEntries, h]

theorem lastEntry_cons (p : String × String) (entries : List (String × String)) (k : String) :
    lastEntry (p :: entries) k =
      (lastEntry entries k).or (List.find? (fun q => decide (q.1 = k)) [p]) := by
  unfold lastEntry
  rw [List.reverse_cons, List.find?_append]

theorem lastEntry_append (a b : List (String × String)) (k : String) :
    lastEntry (a ++ b) k = (lastEntry b k).or (lastEntry a k) := by
  unfold lastEntry
  rw [List.reverse_append, List.find?_append]

/-! ### Key properties of the desired-state builder -/

theorem desiredRules_nodup (zs : List Zone) (tid : String) (rules : List IngressRule) :
    ∀ (acc m : Dict), dnodup acc → desiredRules zs tid acc rules = Except.ok m →
      dnodup m := by
  induction rules with
  | nil =>
    intro acc m ha h
    rw [desiredRules_nil] at h
    exact (Except.ok.inj h) ▸ ha
  | cons r rest ih =>
    intro acc m ha h
    cases hr : r.hostname with
    | none =>
      rw [desiredRules_cons_skip zs tid acc r rest hr] at h
      exact ih acc m ha h
    | some hn =>
      cases hz : zone_name_to_id zs (apexDomain hn) with
      | error e =>
        rw [desiredRules_cons_err zs tid acc r rest hn e hr hz] at h
        cases h
      | ok zid =>
        rw [desiredRules_cons_ok zs tid acc r rest hn zid hr hz] at h
        exact ih _ m (dnodup_dinsert acc hn _ ha) h

theorem desiredTunnels_nodup (zs : List Zone) (ts : List Tunnel) :
    ∀ (acc m : Dict), dnodup acc → desiredTunnels zs acc ts = Except.ok m →
      dnodup m := by
  induction ts with
  | nil =>
    intro acc m ha h
    rw [desiredTunnels_nil] at h
    exact (Except.ok.inj h) ▸ ha
  | cons t rest ih =>
    intro acc m ha h
    cases hd : desiredRules zs t.id acc t.ingress with
    | error e =>
      rw [desiredTunnels_cons_err zs acc t rest e hd] at h
      cases h
    | ok acc2 =>
      rw [desiredTunnels_cons_ok zs acc t rest acc2 hd] at h
      exact ih acc2 m (desiredRules_nodup zs t.id t.ingress acc acc2 ha hd) h

theorem desired_nodup (zs : List Zone) (ts : List Tunnel) (d : Dict)
    (h : desired zs ts = Except.ok d) : dnodup d :=
  desiredTunnels_nodup zs ts [] d (by simp [dnodup, dkeys]) h

theorem desiredRules_ok_get (zs : List Zone) (tid : String) (rules : List IngressRule) :
    ∀ (acc m : Dict), desiredRules zs tid acc rules = Except.ok m → ∀ k,
      dget m k =
        (lastEntry (ruleEntries tid rules) k).elim (dget acc k)
          (fun p => (lookupZoneId zs (apexDomain k)).map (fun zid => desiredRecord zid p.2)) := by
  induction rules with
  | nil =>
    intro acc m h k
    rw [desiredRules_nil] at h
    rw [← Except.ok.inj h]
    simp [ruleEntries, lastEntry]
  | cons r rest ih =>
    intro acc m h k
    cases hr : r.hostname with
    | none =>
      rw [desiredRules_cons_skip zs tid acc r rest hr] at h
      rw [ruleEntries_cons_skip tid r rest hr]
      exact ih acc m h k
    | some hn =>
      cases hz : zone_name_to_id zs (apexDomain hn) with
      | error e =>
        rw [desiredRules_cons_err zs tid acc r rest hn e hr hz] at h
        cases h
      | ok zid =>
        rw [desiredRules_cons_ok zs tid acc r rest hn zid hr hz] at h
        have hih := ih _ m h k
        rw [ruleEntries_cons tid r rest hn hr, lastEntry_cons]
        cases hfe : lastEntry (ruleEntries tid rest) k with
        | some p =>
          rw [hfe] at hih
          rw [Option.or_some, Option.elim_some]
          rw [Option.elim_some] at hih
          exact hih
        | none =>
          rw [hfe] at hih
          rw [Option.elim_none] at hih
          rw [hih, dget_dinsert, Option.none_or]
          by_cases hk : hn = k
          · rw [List.find?_cons_of_pos _ (by simpa using hk), Option.elim_some]
            have hzk : zone_name_to_id zs (apexDomain k) = Except.ok zid := hk ▸ hz
            rw [(zone_ok_iff zs (apexDomain k) zid).mp hzk]
            rw [if_pos hk.symm]
            rfl
          · rw [List.find?_cons_of_neg _ (by simpa using hk), List.find?_nil,
              Option.elim_none, if_neg (fun hh => hk hh.symm)]

theorem desiredTunnels_ok_get (zs : List Zone) (ts : List Tunnel) :
    ∀ (acc m : Dict), desiredTunnels zs acc ts = Except.ok m → ∀ k,
      dget m k =
        (lastEntry (ingressEntries ts) k).elim (dget acc k)
          (fun p => (lookupZoneId zs (apexDomain k)).map (fun zid => desiredRecord zid p.2)) := by
  induction ts with
  | nil =>
    intro acc m h k
    rw [desiredTunnels_nil] at h
    rw [← Except.ok.inj h]
    simp [ingressEntries, lastEntry]
  | cons t rest ih =>
    intro acc m h k
    cases hd : desiredRules zs t.id acc t.ingress with
    | error e =>
      rw [desiredTunnels_cons_err zs acc t rest e hd] at h
      cases h
    | ok acc2 =>
      rw [desiredTunnels_cons_ok zs acc t rest acc2 hd] at h
      have hih := ih acc2 m h k
      have hing : ingressEntries (t :: rest) =
          ruleEntries t.id t.ingress ++ ingressEntries rest := by
        simp [ingressEntries]
      rw [hing, lastEntry_append]
      cases hfe : lastEntry (ingressEntries rest) k with
      | some p =>
        rw [hfe] at hih
        rw [Option.or_some, Option.elim_some]
        rw [Option.elim_some] at hih
        exact hih
      | none =>
        rw [hfe] at hih
        rw [Option.elim_none] at hih
        rw [Option.none_or, hih]
        exact desiredRules_ok_get zs t.id t.ingress acc acc2 hd k

theorem desired_ok_get (zs : List Zone) (ts : List Tunnel) (d : Dict)
    (h : desired zs ts = Except.ok d) (k : String) :
    dget d k =
      (lastEntry (ingressEntries ts) k).bind
        (fun p => (lookupZoneId zs (apexDomain k)).map (fun zid => desiredRecord zid p.2)) := by
  have hh := desiredTunnels_ok_get zs ts [] d h k
  cases hfe : lastEntry (ingressEntries ts) k with
  | some p =>
    rw [hfe, Option.elim_some] at hh
    rw [hh]
    rfl
  | none =>
    rw [hfe, Option.elim_none] at hh
    rw [hh]
    rfl

theorem desiredRules_err (zs : List Zone) (tid : String) (rules : List IngressRule) :
    ∀ (acc : Dict) (e : String), desiredRules zs tid acc rules = Except.error e →
      zoneResolvable zs e = false ∧
        ∃ r ∈ rules, ∃ hn, r.hostname = some hn ∧ e = apexDomain hn := by
  induction rules with
  | nil =>
    intro acc e h
    rw [desiredRules_nil] at h
    cases h
  | cons r rest ih =>
    intro acc e h
    cases hr : r.hostname with
    | none =>
      rw [desiredRules_cons_skip zs tid acc r rest hr] at h
      obtain ⟨h1, r2, hr2, hn, hhn, he⟩ := ih acc e h
      exact ⟨h1, r2, List.mem_cons_of_mem r hr2, hn, hhn, he⟩
    | some hn =>
      cases hz : zone_name_to_id zs (apexDomain hn) with
      | error e2 =>
        rw [desiredRules_cons_err zs tid acc r rest hn e2 hr hz] at h
        have he : e2 = e := Except.error.inj h
        obtain ⟨hez, hres⟩ := zone_err_props zs (apexDomain hn) e2 hz
        exact ⟨(he ▸ hez : e = apexDomain hn) ▸ hres,
          r, List.mem_cons_self r rest, hn, hr, he ▸ hez⟩
      | ok zid =>
        rw [desiredRules_cons_ok zs tid acc r rest hn zid hr hz] at h
        obtain ⟨h1, r2, hr2, hn2, hhn2, he2⟩ := ih _ e h
        exact ⟨h1, r2, List.mem_cons_of_mem r hr2, hn2, hhn2, he2⟩

theorem desiredRules_ok_resolvable (zs : List Zone) (tid : String)
    (rules : List IngressRule) :
    ∀ (acc m : Dict), desiredRules zs tid acc rules = Except.ok m →
      ∀ r ∈ rules, ∀ hn, r.hostname = some hn →
        zoneResolvable zs (apexDomain hn) = true := by
  induction rules with
  | nil =>
    intro acc m _ r hr
    simp at hr
  | cons r rest ih =>
    intro acc m h r2 hr2 hn2 hhn2
    cases hr : r.hostname with
    | none =>
      rw [desiredRules_cons_skip zs tid acc r rest hr] at h
      rcases List.mem_cons.mp hr2 with heq | hmem
      · rw [heq, hr] at hhn2; cases hhn2
      · exact ih acc m h r2 hmem hn2 hhn2
    | some hn =>
      cases hz : zone_name_to_id zs (apexDomain hn) with
      | error e =>
        rw [desiredRules_cons_err zs tid acc r rest hn e hr hz] at h
        cases h
      | ok zid =>
        rw [desiredRules_cons_ok zs tid acc r rest hn zid hr hz] at h
        rcases List.mem_cons.mp hr2 with heq | hmem
        · rw [heq, hr] at hhn2
          have : hn = hn2 := Option.some.inj hhn2
          rw [← this]
          rw [zoneResolvable, (zone_ok_iff zs (apexDomain hn) zid).mp hz]
          rfl
        · exact ih _ m h r2 hmem hn2 hhn2

theorem desiredTunnels_err (zs : List Zone) (ts : List Tunnel) :
    ∀ (acc : Dict) (e : String), desiredTunnels zs acc ts = Except.error e →
      zoneResolvable zs e = false ∧
        ∃ t ∈ ts, ∃ r ∈ t.ingress, ∃ hn, r.hostname = some hn ∧ e = apexDomain hn := by
  induction ts with
  | nil =>
    intro acc e h
    rw [desiredTunnels_nil] at h
    cases h
  | cons t rest ih =>
    intro acc e h
    cases hd : desiredRules zs t.id acc t.ingress with
    | error e2 =>
      rw [desiredTunnels_cons_err zs acc t rest e2 hd] at h
      have he : e2 = e := Except.error.inj h
      obtain ⟨h1, r, hr, hn, hhn, he2⟩ := desiredRules_err zs t.id t.ingress acc e2 hd
      exact ⟨he ▸ h1, t, List.mem_cons_self t rest, r, hr, hn, hhn, he ▸ he2⟩
    | ok acc2 =>
      rw [desiredTunnels_cons_ok zs acc t rest acc2 hd] at h
      obtain ⟨h1, t2, ht2, r, hr, hn, hhn, he2⟩ := ih acc2 e h
      exact ⟨h1, t2, List.mem_cons_of_mem t ht2, r, hr, hn, hhn, he2⟩

theorem desiredTunnels_ok_resolvable (zs : List Zone) (ts : List Tunnel) :
    ∀ (acc m : Dict), desiredTunnels zs acc ts = Except.ok m →
      ∀ t ∈ ts, ∀ r ∈ t.ingress, ∀ hn, r.hostname = some hn →
        zoneResolvable zs (apexDomain hn) = true := by
  induction ts with
  | nil =>
    intro acc m _ t ht
    simp at ht
  | cons t rest ih =>
    intro acc m h t2 ht2 r hr hn hhn
    cases hd : desiredRules zs t.id acc t.ingress with
    | error e =>
      rw [desiredTunnels_cons_err zs acc t rest e hd] at h
      cases h
    | ok acc2 =>
      rw [desiredTunnels_cons_ok zs acc t rest acc2 hd] at h
      rcases List.mem_cons.mp ht2 with heq | hmem
      · exact desiredRules_ok_resolvable zs t.id t.ingress acc acc2 hd r (heq ▸ hr) hn hhn
      · exact ih acc2 m h t2 hmem r hr hn hhn

/-! ### Single-label hostnames and update-batch membership -/

theorem splitOnDot_no_dot (l : List Char) (h : '.' ∉ l) : splitOnDot l = [l] := by
  induction l with
  | nil => rfl
  | cons ch rest ih =>
    simp only [List.mem_cons, not_or] at h
    unfold splitOnDot
    rw [ih h.2]
    show (if ch = '.' then [] :: rest :: ([] : List (List Char)) else (ch :: rest) :: []) =
      [ch :: rest]
    rw [if_neg (fun hh => h.1 hh.symm)]

theorem apexDomain_no_dot (hn : String) (h : '.' ∉ hn.toList) : apexDomain hn = "" := by
  unfold apexDomain
  rw [splitOnDot_no_dot hn.toList h]
  rfl

theorem update_sub_mutations (d c : Dict) (prompt : Bool) (answer : String) (μ : Mutation)
    (hμ : μ ∈ update d c prompt answer) :
    ∃ q ∈ updateSet d c, μ = Mutation.patch q.2.zone_id q.2.id q.1 q.2.data := by
  unfold update at hμ
  by_cases h0 : (updateSet d c).length = 0
  · rw [if_pos h0] at hμ
    cases hμ
  · rw [if_neg h0] at hμ
    by_cases hp : prompt && !(answer == "y")
    · rw [if_pos hp] at hμ
      cases hμ
    · rw [if_neg hp] at hμ
      rw [List.mem_map] at hμ
      obtain ⟨q, hq, hμeq⟩ := hμ
      exact ⟨q, hq, hμeq.symm⟩

theorem mem_updateSet (d c : Dict) (q : String × Record) (hq : q ∈ updateSet d c) :
    ∃ a ∈ d, ∃ cr, dget c a.1 = some cr ∧ truedesire a.2 cr ≠ cr ∧
      q = (a.1, truedesire a.2 cr) := by
  unfold updateSet at hq
  rw [List.mem_filterMap] at hq
  obtain ⟨a, ha, hfa⟩ := hq
  split at hfa
  next cr hc =>
    split at hfa
    next ht => exact ⟨a, ha, cr, hc, ht, (Option.some.inj hfa).symm⟩
    next ht => cases hfa
  next hc => cases hfa

/-! ### Claims -/

/-- Claim C3: for every hostname k present in both the desired and the current
map, k is in the update set exactly when `truedesire(desired[k], current[k])`
differs from `current[k]`, and the update-set record is that `truedesire`
record — the current id with the remaining desired fields. In particular,
when they agree on everything but `id`, k is absent from the update set. -/
theorem C3_update_membership (d c : Dict) (hd : dnodup d) (k : String) (dr cr : Record)
    (hdk : dget d k = some dr) (hck : dget c k = some cr) :
    dget (updateSet d c) k =
      if truedesire dr cr = cr then none else some (truedesire dr cr) := by
  have h := updateSet_dget d c hd k dr hdk
  rw [hck] at h
  exact h

/-- Witness for C3 on the update example of the spec: desired content
`T2.cfargotunnel.com` against current content `T1.cfargotunnel.com` puts the
hostname in the update set with the current id. -/
theorem C3_update_membership_witness :
    dget (updateSet
        [("a.example.com", ⟨none, "Z1", "CNAME", "T2.cfargotunnel.com", true, true, 1⟩)]
        [("a.example.com", ⟨some "rec1", "Z1", "CNAME", "T1.cfargotunnel.com", true, true, 1⟩)])
      "a.example.com" =
      if truedesire ⟨none, "Z1", "CNAME", "T2.cfargotunnel.com", true, true, 1⟩
          ⟨some "rec1", "Z1", "CNAME", "T1.cfargotunnel.com", true, true, 1⟩ =
          ⟨some "rec1", "Z1", "CNAME", "T1.cfargotunnel.com", true, true, 1⟩ then none
      else some (truedesire ⟨none, "Z1", "CNAME", "T2.cfargotunnel.com", true, true, 1⟩
          ⟨some "rec1", "Z1", "CNAME", "T1.cfargotunnel.com", true, true, 1⟩) :=
  C3_update_membership _ _ (by decide) "a.example.com" _ _ (by decide) (by decide)

/-- Claim C4 is false on the code: the diff does NOT compare only the five
fields type, content, proxiable, proxied, ttl. Here the desired and current
records agree on those five fields but differ in zone_id, and the hostname IS
in the update set (fix.py line 155 compares whole records, excluding only
id). -/
theorem C4_counterexample_zone_id_compared :
    (⟨none, "Z1", "CNAME", "T1.cfargotunnel.com", true, true, 1⟩ : Record).type =
      (⟨some "rec1", "Z2", "CNAME", "T1.cfargotunnel.com", true, true, 1⟩ : Record).type ∧
    (⟨none, "Z1", "CNAME", "T1.cfargotunnel.com", true, true, 1⟩ : Record).content =
      (⟨some "rec1", "Z2", "CNAME", "T1.cfargotunnel.com", true, true, 1⟩ : Record).content ∧
    (⟨none, "Z1", "CNAME", "T1.cfargotunnel.com", true, true, 1⟩ : Record).proxiable =
      (⟨some "rec1", "Z2", "CNAME", "T1.cfargotunnel.com", true, true, 1⟩ : Record).proxiable ∧
    (⟨none, "Z1", "CNAME", "T1.cfargotunnel.com", true, true, 1⟩ : Record).proxied =
      (⟨some "rec1", "Z2", "CNAME", "T1.cfargotunnel.com", true, true, 1⟩ : Record).proxied ∧
    (⟨none, "Z1", "CNAME", "T1.cfargotunnel.com", true, true, 1⟩ : Record).ttl =
      (⟨some "rec1", "Z2", "CNAME", "T1.cfargotunnel.com", true, true, 1⟩ : Record).ttl ∧
    dget (updateSet
        [("a.example.com", ⟨none, "Z1", "CNAME", "T1.cfargotunnel.com", true, true, 1⟩)]
        [("a.example.com", ⟨some "rec1", "Z2", "CNAME", "T1.cfargotunnel.com", true, true, 1⟩)])
      "a.example.com" =
      some ⟨some "rec1", "Z1", "CNAME", "T1.cfargotunnel.com", true, true, 1⟩ := by
  decide

/-- Claim C4 amended: the update diff compares every field except id — the
six fields zone_id, type, content, proxiable, proxied, ttl. When desired and
current agree on all six, the hostname is not in the update set. -/
theorem C4_amended_update_compares_all_but_id (d c : Dict) (hd : dnodup d) (k : String)
    (dr cr : Record) (hdk : dget d k = some dr) (hck : dget c k = some cr)
    (hty : dr.type = cr.type) (hco : dr.content = cr.content)
    (hpa : dr.proxiable = cr.proxiable) (hpb : dr.proxied = cr.proxied)
    (httl : dr.ttl = cr.ttl) (hz : dr.zone_id = cr.zone_id) :
    dget (updateSet d c) k = none := by
  have heq : truedesire dr cr = cr := by
    unfold truedesire
    cases dr
    cases cr
    simp_all
  have h := updateSet_dget d c hd k dr hdk
  rw [hck] at h
  rw [h]
  show (if truedesire dr cr = cr then none else some (truedesire dr cr)) = none
  rw [if_pos heq]

/-- Witness for the amended C4: agreement on all six non-id fields keeps the
hostname out of the update set. -/
theorem C4_amended_witness :
    dget (updateSet
        [("a.example.com", ⟨none, "Z1", "CNAME", "T1.cfargotunnel.com", true, true, 1⟩)]
        [("a.example.com", ⟨some "rec1", "Z1", "CNAME", "T1.cfargotunnel.com", true, true, 1⟩)])
      "a.example.com" = none :=
  C4_amended_update_compares_all_but_id _ _ (by decide) "a.example.com"
    ⟨none, "Z1", "CNAME", "T1.cfargotunnel.com", true, true, 1⟩
    ⟨some "rec1", "Z1", "CNAME", "T1.cfargotunnel.com", true, true, 1⟩
    (by decide) (by decide) rfl rfl rfl rfl rfl rfl

/-- Claim C5: the create set is exactly the desired entries whose hostname is
absent from the current map, each bound to the unmodified desired record;
and on the Example 1 input (one desired tunnel CNAME, empty current map) the
create set is that single entry while the update and delete sets are empty. -/
theorem C5_create_set_membership (d c : Dict) (hd : dnodup d) :
    (∀ k, dget (createSet d c) k = if dhas c k then none else dget d k) ∧
    (createSet
        [("a.example.com", ⟨none, "Z", "CNAME", "T1.cfargotunnel.com", true, true, 1⟩)] [] =
        [("a.example.com", ⟨none, "Z", "CNAME", "T1.cfargotunnel.com", true, true, 1⟩)] ∧
      updateSet
        [("a.example.com", ⟨none, "Z", "CNAME", "T1.cfargotunnel.com", true, true, 1⟩)] [] = [] ∧
      deleteSet
        [("a.example.com", ⟨none, "Z", "CNAME", "T1.cfargotunnel.com", true, true, 1⟩)] [] = []) :=
  ⟨fun k => createSet_dget d c hd k, by decide⟩

/-- Witness for C5 at the Example 1 input. -/
theorem C5_create_set_membership_witness :
    dget (createSet
        [("a.example.com", ⟨none, "Z", "CNAME", "T1.cfargotunnel.com", true, true, 1⟩)] [])
      "a.example.com" =
      if dhas [] "a.example.com" then none
      else dget [("a.example.com", ⟨none, "Z", "CNAME", "T1.cfargotunnel.com", true, true, 1⟩)]
        "a.example.com" :=
  (C5_create_set_membership _ _ (by decide)).1 "a.example.com"

/-- Claim C8: the create, update and delete batches have pairwise disjoint
key sets — create keys lie in desired minus current, update keys in the
intersection, delete keys in current minus desired. (The computation is pure:
`createSet`, `updateSet` and `deleteSet` are functions of the two maps and
return fresh lists, never mutating their inputs, mirroring the Python dict
comprehensions which build new dicts.) -/
theorem C8_batch_disjointness (d c : Dict) :
    (∀ k, k ∈ dkeys (createSet d c) → dhas d k = true ∧ dhas c k = false) ∧
    (∀ k, k ∈ dkeys (updateSet d c) → dhas d k = true ∧ dhas c k = true) ∧
    (∀ k, k ∈ dkeys (deleteSet d c) → dhas c k = true ∧ dhas d k = false) ∧
    (∀ k, ¬(k ∈ dkeys (createSet d c) ∧ k ∈ dkeys (updateSet d c))) ∧
    (∀ k, ¬(k ∈ dkeys (createSet d c) ∧ k ∈ dkeys (deleteSet d c))) ∧
    (∀ k, ¬(k ∈ dkeys (updateSet d c) ∧ k ∈ dkeys (deleteSet d c))) := by
  have hcreate : ∀ k, k ∈ dkeys (createSet d c) → dhas d k = true ∧ dhas c k = false := by
    intro k hk
    unfold createSet dkeys at hk
    rw [List.mem_map] at hk
    obtain ⟨p, hp, hpk⟩ := hk
    rw [List.mem_filter] at hp
    constructor
    · rw [dhas_iff_mem_keys]
      exact List.mem_map.mpr ⟨p, hp.1, hpk⟩
    · have h2 := hp.2
      rw [hpk] at h2
      simpa using h2
  have hupdate : ∀ k, k ∈ dkeys (updateSet d c) → dhas d k = true ∧ dhas c k = true := by
    intro k hk
    unfold dkeys at hk
    rw [List.mem_map] at hk
    obtain ⟨q, hq, hqk⟩ := hk
    obtain ⟨a, ha, cr, hc, _, hqe⟩ := mem_updateSet d c q hq
    have hk1 : a.1 = k := by rw [hqe] at hqk; exact hqk
    constructor
    · rw [dhas_iff_mem_keys]
      exact List.mem_map.mpr ⟨a, ha, hk1⟩
    · rw [← hk1]
      rw [dhas, hc]
      rfl
  have hdelete : ∀ k, k ∈ dkeys (deleteSet d c) → dhas c k = true ∧ dhas d k = false := by
    intro k hk
    unfold deleteSet dkeys at hk
    rw [List.mem_map] at hk
    obtain ⟨p, hp, hpk⟩ := hk
    rw [List.mem_filter] at hp
    constructor
    · rw [dhas_iff_mem_keys]
      exact List.mem_map.mpr ⟨p, hp.1, hpk⟩
    · have h2 := hp.2
      rw [Bool.and_eq_true] at h2
      have h3 := h2.1
      rw [hpk] at h3
      simpa using h3
  refine ⟨hcreate, hupdate, hdelete, ?_, ?_, ?_⟩
  · intro k ⟨h1, h2⟩
    have hc1 := (hcreate k h1).2
    have hc2 := (hupdate k h2).2
    rw [hc1] at hc2
    cases hc2
  · intro k ⟨h1, h2⟩
    have hc1 := (hcreate k h1).2
    have hc2 := (hdelete k h2).1
    rw [hc1] at hc2
    cases hc2
  · intro k ⟨h1, h2⟩
    have hc1 := (hupdate k h1).1
    have hc2 := (hdelete k h2).2
    rw [hc1] at hc2
    cases hc2

/-- Witness for C8: a hostname in the create batch of a concrete input is in
desired and not in current. -/
theorem C8_batch_disjointness_witness :
    dhas [("a.example.com", ⟨none, "Z", "CNAME", "T1.cfargotunnel.com", true, true, 1⟩)]
      "a.example.com" = true ∧
    dhas [] "a.example.com" = false :=
  (C8_batch_disjointness
      [("a.example.com", ⟨none, "Z", "CNAME", "T1.cfargotunnel.com", true, true, 1⟩)] []).1
    "a.example.com" (by decide)

/-- Claim C6: when some ingress hostname has an apex domain (the hostname
with its first label dropped) matching no zone of the listing, the
desired-state construction fails with the zone-not-found error carrying such
an apex domain, `process` propagates exactly that error, and no mutation list
is produced — no create, patch or delete call is issued. -/
theorem C6_zone_not_found_fatal (zs : List Zone) (ts : List Tunnel) (cur : Dict)
    (prompt : Bool) (aCreate aUpdate aDelete : String)
    (h : ∃ t ∈ ts, ∃ r ∈ t.ingress, ∃ hn, r.hostname = some hn ∧
        zoneResolvable zs (apexDomain hn) = false) :
    ∃ e, desired zs ts = Except.error e ∧
      process zs ts cur prompt aCreate aUpdate aDelete = Except.error e ∧
      zoneResolvable zs e = false ∧
      ∃ t ∈ ts, ∃ r ∈ t.ingress, ∃ hn, r.hostname = some hn ∧ e = apexDomain hn := by
  cases hdes : desired zs ts with
  | ok d =>
    exfalso
    obtain ⟨t, ht, r, hr, hn, hhn, hres⟩ := h
    have := desiredTunnels_ok_resolvable zs ts [] d hdes t ht r hr hn hhn
    rw [hres] at this
    cases this
  | error e =>
    obtain ⟨h1, hex⟩ := desiredTunnels_err zs ts [] e hdes
    refine ⟨e, rfl, ?_, h1, hex⟩
    unfold process
    rw [hdes]

/-- Witness for C6 on Example 5 of the spec: hostname `x.unknown-domain.test`
with an empty zone listing aborts the run with the error naming the missing
apex domain. -/
theorem C6_zone_not_found_fatal_witness :
    ∃ e, desired [] [⟨"T1", "tun", [⟨some "x.unknown-domain.test"⟩]⟩] = Except.error e ∧
      process [] [⟨"T1", "tun", [⟨some "x.unknown-domain.test"⟩]⟩] [] true "y" "y" "y" =
        Except.error e ∧
      zoneResolvable [] e = false ∧
      ∃ t ∈ [(⟨"T1", "tun", [⟨some "x.unknown-domain.test"⟩]⟩ : Tunnel)], ∃ r ∈ t.ingress,
        ∃ hn, r.hostname = some hn ∧ e = apexDomain hn :=
  C6_zone_not_found_fatal [] [⟨"T1", "tun", [⟨some "x.unknown-domain.test"⟩]⟩] [] true
    "y" "y" "y"
    ⟨⟨"T1", "tun", [⟨some "x.unknown-domain.test"⟩]⟩, by simp,
      ⟨some "x.unknown-domain.test"⟩, by simp, "x.unknown-domain.test", rfl, by decide⟩

/-- Claim C7: when the desired map builds successfully, every binding is
exactly determined by the last ingress entry for that hostname (rules without
a hostname contribute no entry; a later rule for the same hostname overwrites
an earlier one): the record has id absent, zone_id resolved from the apex
domain (the hostname with its first label dropped), type CNAME, content
`<tunnelId>.cfargotunnel.com`, proxiable and proxied true, and ttl 1 — the
shape of `desiredRecord`. Hostnames with no ingress entry are absent. -/
theorem C7_desired_construction (zs : List Zone) (ts : List Tunnel) (d : Dict)
    (h : desired zs ts = Except.ok d) (k : String) :
    dget d k =
      (lastEntry (ingressEntries ts) k).bind
        (fun p => (lookupZoneId zs (apexDomain k)).map (fun zid => desiredRecord zid p.2)) :=
  desired_ok_get zs ts d h k

/-- Witness for C7: two tunnels route the same hostname; the map holds the
record for the later tunnel (last-wins), with the resolved zone id. -/
theorem C7_desired_construction_witness :
    dget [("a.example.com", desiredRecord "zid1" "T2")] "a.example.com" =
      (lastEntry
          (ingressEntries
            [⟨"T1", "t1", [⟨some "a.example.com"⟩]⟩,
             ⟨"T2", "t2", [⟨none⟩, ⟨some "a.example.com"⟩]⟩])
          "a.example.com").bind
        (fun p => (lookupZoneId [⟨"zid1", "example.com"⟩] (apexDomain "a.example.com")).map
          (fun zid => desiredRecord zid p.2)) :=
  C7_desired_construction [⟨"zid1", "example.com"⟩]
    [⟨"T1", "t1", [⟨some "a.example.com"⟩]⟩, ⟨"T2", "t2", [⟨none⟩, ⟨some "a.example.com"⟩]⟩]
    [("a.example.com", desiredRecord "zid1" "T2")] rfl "a.example.com"

/-- Claim C9: a hostname without a dot has the empty string as its derived
apex domain, so the zone lookup is for the zone named `""` and fails with the
zone-not-found error — aborting desired-state construction at that rule —
unless the zone listing contains a zone whose name is the empty string. -/
theorem C9_single_label_hostname (hn : String) (zs : List Zone)
    (hdot : '.' ∉ hn.toList) :
    apexDomain hn = "" ∧
    (zoneResolvable zs "" = false →
      zone_name_to_id zs (apexDomain hn) = Except.error "" ∧
      ∀ (tid : String) (acc : Dict) (rest : List IngressRule),
        desiredRules zs tid acc (⟨some hn⟩ :: rest) = Except.error "") := by
  have hap : apexDomain hn = "" := apexDomain_no_dot hn hdot
  refine ⟨hap, fun hres => ?_⟩
  have herr : zone_name_to_id zs (apexDomain hn) = Except.error "" := by
    rw [hap]
    exact zone_err_of_unresolvable zs "" hres
  exact ⟨herr, fun tid acc rest =>
    desiredRules_cons_err zs tid acc ⟨some hn⟩ rest hn "" rfl herr⟩

/-- Witness for C9 at hostname `localhost` with an empty zone listing. -/
theorem C9_single_label_hostname_witness :
    apexDomain "localhost" = "" ∧
    (zoneResolvable [] "" = false →
      zone_name_to_id [] (apexDomain "localhost") = Except.error "" ∧
      ∀ (tid : String) (acc : Dict) (rest : List IngressRule),
        desiredRules [] tid acc (⟨some "localhost"⟩ :: rest) = Except.error "") :=
  C9_single_label_hostname "localhost" [] (by decide)

/-- Claim C10: every patch call issued by the update batch is addressed to
the zone id of the desired record — which, when the desired map came from the
builder, is the zone resolved from the apex domain of the hostname — and to
the record id of the current record, with the truedesire payload. -/
theorem C10_update_addressing (zs : List Zone) (ts : List Tunnel) (d c : Dict)
    (prompt : Bool) (answer : String) (hok : desired zs ts = Except.ok d)
    (μ : Mutation) (hμ : μ ∈ update d c prompt answer) :
    ∃ k dr cr, dget d k = some dr ∧ dget c k = some cr ∧
      lookupZoneId zs (apexDomain k) = some dr.zone_id ∧
      μ = Mutation.patch dr.zone_id cr.id k (truedesire dr cr).data := by
  have hnd := desired_nodup zs ts d hok
  obtain ⟨q, hq, hμeq⟩ := update_sub_mutations d c prompt answer μ hμ
  obtain ⟨a, ha, cr, hc, _, hqe⟩ := mem_updateSet d c q hq
  have hda : dget d a.1 = some a.2 := dget_of_mem_nodup d a.1 a.2 hnd ha
  have hget := desired_ok_get zs ts d hok a.1
  rw [hda] at hget
  cases hle : lastEntry (ingressEntries ts) a.1 with
  | none =>
    rw [hle] at hget
    cases hget
  | some p =>
    rw [hle] at hget
    cases hlz : lookupZoneId zs (apexDomain a.1) with
    | none =>
      rw [hlz] at hget
      cases hget
    | some zid =>
      rw [hlz] at hget
      have hrec : a.2 = desiredRecord zid p.2 := Option.some.inj hget
      have hzid : zid = a.2.zone_id := by rw [hrec]; rfl
      refine ⟨a.1, a.2, cr, hda, hc, hzid ▸ hlz, ?_⟩
      rw [hμeq, hqe]
      rfl

/-- Witness for C10: a concrete update patch call carries the zone id of the
freshly resolved desired record and the id of the existing current record. -/
theorem C10_update_addressing_witness :
    ∃ k dr cr,
      dget [("a.example.com", desiredRecord "zid1" "T2")] k = some dr ∧
      dget [("a.example.com",
        ⟨some "rec1", "zidOld", "CNAME", "T1.cfargotunnel.com", true, true, 1⟩)] k =
        some cr ∧
      lookupZoneId [⟨"zid1", "example.com"⟩] (apexDomain k) = some dr.zone_id ∧
      Mutation.patch "zid1" (some "rec1") "a.example.com"
          ⟨"CNAME", "T2.cfargotunnel.com", true, true, 1⟩ =
        Mutation.patch dr.zone_id cr.id k (truedesire dr cr).data :=
  C10_update_addressing [⟨"zid1", "example.com"⟩] [⟨"T2", "t2", [⟨some "a.example.com"⟩]⟩]
    [("a.example.com", desiredRecord "zid1" "T2")]
    [("a.example.com", ⟨some "rec1", "zidOld", "CNAME", "T1.cfargotunnel.com", true, true, 1⟩)]
    false "" rfl
    (Mutation.patch "zid1" (some "rec1") "a.example.com"
      ⟨"CNAME", "T2.cfargotunnel.com", true, true, 1⟩) (by decide)

/-- Claim C1 evaluated against the code at its failing inputs: fix.py line
129 filters the delete set on the HOSTNAME `k.endswith(".cfargotunnel.com")`,
not on the record content. Example 3 of the spec (orphan record for
`b.example.com` whose content `T3.cfargotunnel.com` carries the
tunnel-managed suffix) is NOT in the delete set, although the claim requires
it to be; conversely an orphan whose hostname happens to end in the suffix
but whose content `203.0.113.5` does not is IN the delete set, although the
claim forbids it. -/
theorem C1_delete_scoping_failing_inputs :
    dkeys (deleteSet []
        [("b.example.com", ⟨some "rec2", "Z1", "CNAME", "T3.cfargotunnel.com", true, true, 1⟩)]) =
      [] ∧
    endswith "T3.cfargotunnel.com" ".cfargotunnel.com" = true ∧
    dkeys (deleteSet []
        [("x.cfargotunnel.com", ⟨some "rec3", "Z1", "A", "203.0.113.5", false, false, 300⟩)]) =
      ["x.cfargotunnel.com"] ∧
    endswith "203.0.113.5" ".cfargotunnel.com" = false := by
  decide

/-- Claim C2 evaluated against the code at its failing input: with non-empty
batches, prompt enabled and the answer "n", `create` and `update` issue no
calls, but `delete` — whose declined-prompt branch at fix.py line 139 logs
"not deleting records" without returning — still issues its delete call. -/
theorem C2_delete_ignores_declined_prompt :
    create [("a.example.com", ⟨none, "Z1", "CNAME", "T2.cfargotunnel.com", true, true, 1⟩)]
      [] true "n" = [] ∧
    update [("a.example.com", ⟨none, "Z1", "CNAME", "T2.cfargotunnel.com", true, true, 1⟩)]
      [("a.example.com", ⟨some "rec1", "Z1", "CNAME", "T1.cfargotunnel.com", true, true, 1⟩)]
      true "n" = [] ∧
    delete []
      [("x.cfargotunnel.com", ⟨some "rec9", "Z1", "CNAME", "T9.cfargotunnel.com", true, true, 1⟩)]
      true "n" = [Mutation.delete "Z1" (some "rec9")] := by
  decide
